import Mathlib

/-!
# Session id manager (`SessionIDManager.go`)

A shallow embedding of the session id allocator of the stratum switcher and
the properties proved about it.

* `uint32` values are natural numbers; every operation that can overflow is
  written with an explicit `% 2 ^ 32`.
* The mutex only serialises the calls; each operation is modelled as one
  atomic transition on the manager state.
* The scan loop of `AllocSessionID` has no static bound in the source, so it is
  modelled with a probe budget (`fuel`): `none` means that the budget was used
  up before the loop left.
-/

namespace StratumSwitcher

/-! ## The bit set used by the manager -/

/-- Modelled from the spec: the occupancy bitmap (`bitset.BitSet` of the
library `github.com/willf/bitset`, which is not part of the sources): a length
and the set of indices whose bit is set. -/
structure BitSet where
  /-- The number of bits the set currently holds. -/
  length : Nat
  /-- The indices whose bit is set. -/
  bits : Finset Nat
deriving DecidableEq

namespace BitSet

/-- Modelled from the spec: `bitset.New(length)`, a set of `length` bits, all clear. -/
def New (length : Nat) : BitSet := { length := length, bits := ∅ }

/-- Modelled from the spec: `ClearAll()`, clears every bit and keeps the length. -/
def ClearAll (b : BitSet) : BitSet := { b with bits := ∅ }

/-- Modelled from the spec: `Test(i)`, whether bit `i` is set (`false` beyond the length). -/
def Test (b : BitSet) (i : Nat) : Bool :=
  if i ≥ b.length then false else decide (i ∈ b.bits)

/-- Modelled from the spec: `Set(i)`, sets bit `i`, growing the set when `i`
is beyond the length. -/
def Set (b : BitSet) (i : Nat) : BitSet :=
  { length := if i ≥ b.length then i + 1 else b.length, bits := insert i b.bits }

/-- Modelled from the spec: `Clear(i)`, clears bit `i` (nothing happens beyond the length). -/
def Clear (b : BitSet) (i : Nat) : BitSet :=
  if i ≥ b.length then b else { b with bits := b.bits.erase i }

/-- Modelled from the spec: `Count()`, the number of set bits. -/
def Count (b : BitSet) : Nat := b.bits.card

end BitSet

/-! ## The manager -/

/-- The constant `SessionIDMask`: separates server id and session id. -/
def SessionIDMask : Nat := 0x00FFFFFF

/-- The constant `MaxValidSessionID`: the largest slot that is handed out. -/
def MaxValidSessionID : Nat := SessionIDMask - 1

/-- The fields of `SessionIDManager` (the lock apart). -/
structure SessionIDManager where
  /-- The field `serverID` (`uint8`). -/
  serverID : Nat
  /-- The field `sessionIDs`. -/
  sessionIDs : BitSet
  /-- The field `count` (`uint32`): how many ids are used now. -/
  count : Nat
  /-- The field `allocIDx` (`uint32`): the scan cursor. -/
  allocIDx : Nat
deriving DecidableEq

/-- The constructor `NewSessionIDManager(serverID)`. -/
def NewSessionIDManager (serverID : Nat) : SessionIDManager :=
  { serverID := serverID
    sessionIDs := (BitSet.New SessionIDMask).ClearAll
    count := 0
    allocIDx := 0 }

/-- The method `isFull`. -/
def isFull (manager : SessionIDManager) : Bool :=
  decide (manager.count ≥ SessionIDMask)

/-- The method `IsFull` (it takes the lock and calls `isFull`). -/
def IsFull (manager : SessionIDManager) : Bool :=
  isFull manager

/-- One pass through the body of the scan loop of `AllocSessionID`:
`allocIDx++` on a `uint32`, then the wrap to `0` above `MaxValidSessionID`. -/
def scanStep (allocIDx : Nat) : Nat :=
  if (allocIDx + 1) % 2 ^ 32 > MaxValidSessionID then 0 else (allocIDx + 1) % 2 ^ 32

/-- The scan loop of `AllocSessionID`,
`for sessionIDs.Test(allocIDx) { allocIDx++; if allocIDx > MaxValidSessionID { allocIDx = 0 } }`,
with at most `fuel` evaluations of the loop condition. The result is the
cursor at which the loop left, `none` when the budget is used up. -/
def scanLoop (sessionIDs : BitSet) : Nat → Nat → Option Nat
  | 0, _ => none
  | fuel + 1, allocIDx =>
    if sessionIDs.Test allocIDx then scanLoop sessionIDs fuel (scanStep allocIDx)
    else some allocIDx

/-- The method `AllocSessionID` with a probe budget: the returned pair and the
state after the call, `none` when the scan loop did not leave within `fuel`
probes. -/
def AllocSessionID (fuel : Nat) (manager : SessionIDManager) :
    Option ((Nat × Bool) × SessionIDManager) :=
  if isFull manager then some ((SessionIDMask, false), manager)
  else
    match scanLoop manager.sessionIDs fuel manager.allocIDx with
    | none => none
    | some allocIDx =>
      some ((((manager.serverID <<< 24) % 2 ^ 32) ||| allocIDx, true),
        { manager with
          allocIDx := allocIDx
          sessionIDs := manager.sessionIDs.Set allocIDx
          count := (manager.count + 1) % 2 ^ 32 })

/-- The method `FreeSessionID`. -/
def FreeSessionID (manager : SessionIDManager) (sessionID : Nat) : SessionIDManager :=
  { manager with
    sessionIDs := manager.sessionIDs.Clear (sessionID &&& SessionIDMask)
    count := (manager.count + 2 ^ 32 - 1) % 2 ^ 32 }

/-! ## States, call sequences and reachability -/

/-- The representation invariant of a manager state: the fields fit their
machine types, the cursor is a valid slot, the bitmap has the length it was
created with and holds no bit beyond it. -/
def WellFormed (manager : SessionIDManager) : Prop :=
  manager.serverID < 256 ∧ manager.count < 2 ^ 32 ∧
    manager.allocIDx ≤ MaxValidSessionID ∧
    manager.sessionIDs.length = SessionIDMask ∧
    ∀ i ∈ manager.sessionIDs.bits, i < SessionIDMask

instance (manager : SessionIDManager) : Decidable (WellFormed manager) := by
  unfold WellFormed; infer_instance

/-- The low 24 bits of a session id: the slot it names. -/
def slotOf (sessionID : Nat) : Nat := sessionID &&& SessionIDMask

/-- The states reachable from `NewSessionIDManager serverID` by calls of
`AllocSessionID` that return and calls of `FreeSessionID` on an id that is
outstanding, together with the list of outstanding ids (returned by a
successful `AllocSessionID` and not freed since). -/
inductive Reachable (serverID : Nat) : SessionIDManager → List Nat → Prop
  | init : Reachable serverID (NewSessionIDManager serverID) []
  | allocOk {m m' : SessionIDManager} {out : List Nat} (fuel r : Nat) :
      Reachable serverID m out → AllocSessionID fuel m = some ((r, true), m') →
      Reachable serverID m' (r :: out)
  | allocFull {m m' : SessionIDManager} {out : List Nat} (fuel r : Nat) :
      Reachable serverID m out → AllocSessionID fuel m = some ((r, false), m') →
      Reachable serverID m' out
  | free {m : SessionIDManager} {out : List Nat} (r : Nat) :
      Reachable serverID m out → r ∈ out →
      Reachable serverID (FreeSessionID m r) (out.erase r)

/-- The states reachable from `NewSessionIDManager serverID` by calls of
`AllocSessionID` that return and calls of `FreeSessionID` with any argument,
outstanding or not. -/
inductive ReachableAny (serverID : Nat) : SessionIDManager → Prop
  | init : ReachableAny serverID (NewSessionIDManager serverID)
  | alloc {m m' : SessionIDManager} (fuel : Nat) (res : Nat × Bool) :
      ReachableAny serverID m → AllocSessionID fuel m = some (res, m') →
      ReachableAny serverID m'
  | free {m : SessionIDManager} (sessionID : Nat) :
      ReachableAny serverID m → ReachableAny serverID (FreeSessionID m sessionID)

/-- The results of `n` calls of `AllocSessionID` in a row, no `FreeSessionID`
in between, and the state after them; `none` when one of the calls does not
return within `fuel` probes. -/
def allocMany (fuel : Nat) : Nat → SessionIDManager →
    Option (List (Nat × Bool) × SessionIDManager)
  | 0, m => some ([], m)
  | n + 1, m =>
    match AllocSessionID fuel m with
    | none => none
    | some (r, m') =>
      match allocMany fuel n m' with
      | none => none
      | some (rs, m2) => some (r :: rs, m2)

/-- The ids among the results of a run of calls that were returned with `ok = true`. -/
def okIds (rs : List (Nat × Bool)) : List Nat :=
  (rs.filter (fun x => x.2)).map (fun x => x.1)

/-- The state of a manager whose slots `0, ..., k - 1` are taken, with the
cursor on the last of them: what `k` calls of `AllocSessionID` on a new
manager lead to. -/
def filled (serverID k : Nat) : SessionIDManager :=
  { serverID := serverID
    sessionIDs := { length := SessionIDMask, bits := Finset.range k }
    count := k
    allocIDx := k - 1 }



/-- The invariant that links a manager state to the list of outstanding ids:
the set bits are exactly the slots of the outstanding ids, no two outstanding
ids share a slot, and `count` is their number. -/
def Inv (serverID : Nat) (m : SessionIDManager) (out : List Nat) : Prop :=
  m.serverID = serverID ∧ m.allocIDx ≤ MaxValidSessionID ∧
    m.sessionIDs.length = SessionIDMask ∧
    (out.map slotOf).Nodup ∧
    m.sessionIDs.bits = (out.map slotOf).toFinset ∧
    m.count = out.length ∧
    ∀ r ∈ out, slotOf r ≤ MaxValidSessionID

/-- The first clear slot in the cyclic order `c, c + 1, ..., MaxValidSessionID,
0, 1, ..., c - 1`, written after the words of the specification: `s` is a
clear slot and every slot that comes before it in that order is set. Either
`s` is at or after `c` and the slots from `c` up to `s` are set, or `s` is
before `c` and the slots from `c` to `MaxValidSessionID` and those below `s`
are set. -/
def IsFirstClear (b : BitSet) (c s : Nat) : Prop :=
  s ≤ MaxValidSessionID ∧ b.Test s = false ∧
    ((c ≤ s ∧ ∀ i < s, c ≤ i → b.Test i = true) ∨
     (s < c ∧ (∀ i ≤ MaxValidSessionID, c ≤ i → b.Test i = true) ∧
        ∀ i < s, b.Test i = true))

/-- The calls a client can make on a manager. -/
inductive Call where
  /-- The call `AllocSessionID()`. -/
  | alloc
  /-- The call `FreeSessionID(sessionID)`. -/
  | free (sessionID : Nat)
  /-- The call `IsFull()`. -/
  | isFull
deriving DecidableEq

/-- The state after one call; `none` when the call does not return within
`fuel` probes. `IsFull` only reads the state. -/
def step (fuel : Nat) (m : SessionIDManager) : Call → Option SessionIDManager
  | Call.alloc => (AllocSessionID fuel m).map (fun x => x.2)
  | Call.free sessionID => some (FreeSessionID m sessionID)
  | Call.isFull => some m

/-- The state after a sequence of calls, every one of which returns. -/
def runCalls (fuel : Nat) : List Call → SessionIDManager → Option SessionIDManager
  | [], m => some m
  | c :: cs, m =>
    match step fuel m c with
    | none => none
    | some m' => runCalls fuel cs m'

/-! ## Arithmetic of session ids -/

theorem SessionIDMask_eq : SessionIDMask = 2 ^ 24 - 1 := by
  simp [SessionIDMask]

theorem MaxValidSessionID_eq : MaxValidSessionID = 2 ^ 24 - 2 := by
  simp [MaxValidSessionID, SessionIDMask]

/-- The server part of an id, `uint32(serverID) << 24`, is a multiple of `2 ^ 24`. -/
theorem serverPart_eq (serverID : Nat) :
    (serverID <<< 24) % 2 ^ 32 = 2 ^ 24 * (serverID % 256) := by
  rw [Nat.shiftLeft_eq]
  omega

/-- Composing a server part with a slot below `2 ^ 24` is an addition. -/
theorem compose_eq_add (serverID slot : Nat) (h : slot < 2 ^ 24) :
    ((serverID <<< 24) % 2 ^ 32) ||| slot = 2 ^ 24 * (serverID % 256) + slot := by
  rw [serverPart_eq, Nat.mul_add_lt_is_or h]

/-- The low 24 bits of a number, as a remainder. -/
theorem slotOf_eq_mod (x : Nat) : slotOf x = x % 2 ^ 24 := by
  unfold slotOf
  rw [SessionIDMask_eq]
  exact Nat.and_pow_two_sub_one_eq_mod x 24

/-- The low 24 bits of a composed id are its slot. -/
theorem slotOf_compose (serverID slot : Nat) (h : slot ≤ MaxValidSessionID) :
    slotOf (((serverID <<< 24) % 2 ^ 32) ||| slot) = slot := by
  rw [MaxValidSessionID_eq] at h
  rw [slotOf_eq_mod, compose_eq_add serverID slot (by omega)]
  omega

/-- The top byte of a composed id is the server id. -/
theorem shiftRight_compose (serverID slot : Nat) (hs : serverID < 256)
    (h : slot ≤ MaxValidSessionID) :
    (((serverID <<< 24) % 2 ^ 32) ||| slot) >>> 24 = serverID := by
  rw [MaxValidSessionID_eq] at h
  rw [Nat.shiftRight_eq_div_pow, compose_eq_add serverID slot (by omega)]
  omega

/-! ## The scan loop -/

theorem scanStep_le (allocIDx : Nat) : scanStep allocIDx ≤ MaxValidSessionID := by
  unfold scanStep
  split <;> omega

/-- Where the scan loop leaves: on a clear bit, at a valid slot when it started on one. -/
theorem scanLoop_some {b : BitSet} {fuel a i : Nat} (ha : a ≤ MaxValidSessionID)
    (h : scanLoop b fuel a = some i) : i ≤ MaxValidSessionID ∧ b.Test i = false := by
  induction fuel generalizing a with
  | zero => simp [scanLoop] at h
  | succ n ih =>
    unfold scanLoop at h
    split at h
    · exact ih (scanStep_le a) h
    · rename_i ht
      injection h with h
      subst h
      exact ⟨ha, by simpa using ht⟩

/-- More probes do not change the result of a scan that left. -/
theorem scanLoop_mono {b : BitSet} {fuel a i : Nat} (k : Nat)
    (h : scanLoop b fuel a = some i) : scanLoop b (fuel + k) a = some i := by
  induction fuel generalizing a with
  | zero => simp [scanLoop] at h
  | succ n ih =>
    rw [Nat.add_right_comm]
    unfold scanLoop at h ⊢
    split at h
    · rename_i ht
      rw [if_pos ht]
      exact ih h
    · rename_i ht
      rw [if_neg ht]
      exact h

/-! ## What a call of `AllocSessionID` does -/

/-- A call that returns `ok = true`: the pool was not full, the scan left at
some slot, and result and state are built from that slot. -/
theorem alloc_ok_iff {fuel : Nat} {m m' : SessionIDManager} {r : Nat} :
    AllocSessionID fuel m = some ((r, true), m') ↔
      isFull m = false ∧ ∃ i, scanLoop m.sessionIDs fuel m.allocIDx = some i ∧
        r = (((m.serverID <<< 24) % 2 ^ 32) ||| i) ∧
        m' = { m with allocIDx := i, sessionIDs := m.sessionIDs.Set i,
                      count := (m.count + 1) % 2 ^ 32 } := by
  unfold AllocSessionID
  cases hf : isFull m
  · cases hs : scanLoop m.sessionIDs fuel m.allocIDx with
    | none => simp
    | some i =>
      simp only [Bool.false_eq_true, if_false, Option.some.injEq, Prod.mk.injEq, and_true,
        true_and]
      constructor
      · rintro ⟨rfl, rfl⟩
        exact ⟨i, rfl, rfl, rfl⟩
      · rintro ⟨j, hj, rfl, rfl⟩
        subst hj
        exact ⟨rfl, rfl⟩
  · simp

/-- A call that returns `ok = false`: the pool was full, the result is the
mask and the state is the one before. -/
theorem alloc_full_iff {fuel : Nat} {m m' : SessionIDManager} {r : Nat} :
    AllocSessionID fuel m = some ((r, false), m') ↔
      isFull m = true ∧ r = SessionIDMask ∧ m' = m := by
  unfold AllocSessionID
  cases hf : isFull m
  · cases hs : scanLoop m.sessionIDs fuel m.allocIDx <;> simp
  · simp only [if_true, Option.some.injEq, Prod.mk.injEq, and_true, true_and]
    constructor
    · rintro ⟨rfl, rfl⟩
      exact ⟨rfl, rfl⟩
    · rintro ⟨rfl, rfl⟩
      exact ⟨rfl, rfl⟩

theorem isFull_eq_true_iff (m : SessionIDManager) :
    isFull m = true ↔ SessionIDMask ≤ m.count := by
  simp [isFull]

theorem isFull_eq_false_iff (m : SessionIDManager) :
    isFull m = false ↔ m.count < SessionIDMask := by
  simp [isFull]

/-! ## The invariant of the valid call sequences -/

theorem toFinset_map_erase (f : Nat → Nat) (l : List Nat) (r : Nat)
    (hnd : (l.map f).Nodup) (hr : r ∈ l) :
    ((l.erase r).map f).toFinset = (l.map f).toFinset.erase (f r) := by
  induction l with
  | nil => simp at hr
  | cons a l ih =>
    rw [List.map_cons, List.nodup_cons] at hnd
    by_cases har : a = r
    · subst har
      rw [List.erase_cons_head, List.map_cons, List.toFinset_cons,
        Finset.erase_insert (by simpa using hnd.1)]
    · have hrl : r ∈ l := by
        rcases List.mem_cons.mp hr with h | h
        · exact absurd h.symm har
        · exact h
      have hne : f a ≠ f r := by
        intro he
        exact hnd.1 (he ▸ List.mem_map_of_mem f hrl)
      rw [List.erase_cons_tail (by simpa using har), List.map_cons, List.toFinset_cons,
        ih hnd.2 hrl, List.map_cons, List.toFinset_cons, Finset.erase_insert_of_ne hne]

/-- Under the invariant the number of outstanding ids is at most `SessionIDMask`. -/
theorem Inv.length_le {serverID : Nat} {m : SessionIDManager} {out : List Nat}
    (h : Inv serverID m out) : out.length ≤ SessionIDMask := by
  obtain ⟨-, -, -, hnd, -, -, hle⟩ := h
  have hsub : (out.map slotOf).toFinset ⊆ Finset.range SessionIDMask := by
    intro x hx
    rw [List.mem_toFinset, List.mem_map] at hx
    obtain ⟨r, hr, rfl⟩ := hx
    have := hle r hr
    rw [Finset.mem_range]
    unfold MaxValidSessionID SessionIDMask at *
    omega
  have hc := Finset.card_le_card hsub
  rw [List.toFinset_card_of_nodup hnd, List.length_map, Finset.card_range] at hc
  exact hc

theorem Inv.count_eq_card {serverID : Nat} {m : SessionIDManager} {out : List Nat}
    (h : Inv serverID m out) : m.count = m.sessionIDs.Count := by
  obtain ⟨-, -, -, hnd, hb, hc, -⟩ := h
  unfold BitSet.Count
  rw [hb, List.toFinset_card_of_nodup hnd, List.length_map, hc]

theorem inv_init (serverID : Nat) : Inv serverID (NewSessionIDManager serverID) [] := by
  refine ⟨rfl, ?_, rfl, ?_, ?_, rfl, ?_⟩
  · simp [NewSessionIDManager]
  · simp
  · simp [NewSessionIDManager, BitSet.New, BitSet.ClearAll]
  · simp

/-- A successful `AllocSessionID` keeps the invariant, and the slot of the id
it returns is the slot of no outstanding id. -/
theorem inv_alloc_ok {serverID fuel r : Nat} {m m' : SessionIDManager} {out : List Nat}
    (h : Inv serverID m out) (ha : AllocSessionID fuel m = some ((r, true), m')) :
    Inv serverID m' (r :: out) ∧ slotOf r ∉ out.map slotOf := by
  have hlen := h.length_le
  obtain ⟨hs, hidx, hl, hnd, hb, hc, hle⟩ := h
  obtain ⟨hf, i, hscan, rfl, rfl⟩ := alloc_ok_iff.mp ha
  obtain ⟨hi, ht⟩ := scanLoop_some hidx hscan
  have hislot : slotOf (((m.serverID <<< 24) % 2 ^ 32) ||| i) = i := slotOf_compose _ _ hi
  have hilt : i < m.sessionIDs.length := by
    rw [hl]; unfold MaxValidSessionID at hi; unfold SessionIDMask at *; omega
  have hnot : i ∉ out.map slotOf := by
    have : i ∉ m.sessionIDs.bits := by
      unfold BitSet.Test at ht
      rw [if_neg (by omega)] at ht
      simpa using ht
    rw [hb, List.mem_toFinset] at this
    exact this
  rw [isFull_eq_false_iff] at hf
  refine ⟨⟨hs, hi, ?_, ?_, ?_, ?_, ?_⟩, by rw [hislot]; exact hnot⟩
  · show (if i ≥ m.sessionIDs.length then i + 1 else m.sessionIDs.length) = SessionIDMask
    rw [if_neg (by omega), hl]
  · rw [List.map_cons, hislot]
    exact List.nodup_cons.mpr ⟨hnot, hnd⟩
  · show insert i m.sessionIDs.bits = _
    rw [List.map_cons, hislot, List.toFinset_cons, hb]
  · show (m.count + 1) % 2 ^ 32 = _
    rw [List.length_cons, ← hc]
    unfold SessionIDMask at hf
    omega
  · intro q hq
    rcases List.mem_cons.mp hq with rfl | hq
    · rw [hislot]; exact hi
    · exact hle q hq

/-- A `FreeSessionID` on an outstanding id keeps the invariant. -/
theorem inv_free {serverID r : Nat} {m : SessionIDManager} {out : List Nat}
    (h : Inv serverID m out) (hr : r ∈ out) :
    Inv serverID (FreeSessionID m r) (out.erase r) := by
  have hlen := h.length_le
  obtain ⟨hs, hidx, hl, hnd, hb, hc, hle⟩ := h
  have hslot := hle r hr
  have hlt : ¬ (slotOf r ≥ m.sessionIDs.length) := by
    rw [hl]; unfold MaxValidSessionID at hslot; unfold SessionIDMask at *; omega
  have hpos : 0 < out.length := List.length_pos_of_mem hr
  refine ⟨hs, hidx, ?_, ?_, ?_, ?_, ?_⟩
  · show (m.sessionIDs.Clear (slotOf r)).length = SessionIDMask
    unfold BitSet.Clear
    rw [if_neg hlt]
    exact hl
  · exact hnd.sublist ((List.erase_sublist r out).map slotOf)
  · show (m.sessionIDs.Clear (slotOf r)).bits = _
    unfold BitSet.Clear
    rw [if_neg hlt, toFinset_map_erase slotOf out r hnd hr, ← hb]
  · show (m.count + 2 ^ 32 - 1) % 2 ^ 32 = _
    rw [List.length_erase_of_mem hr, hc]
    unfold SessionIDMask at hlen
    omega
  · intro q hq
    exact hle q (List.mem_of_mem_erase hq)

/-- Every reachable state satisfies the invariant. -/
theorem Reachable.inv {serverID : Nat} {m : SessionIDManager} {out : List Nat}
    (h : Reachable serverID m out) : Inv serverID m out := by
  induction h with
  | init => exact inv_init serverID
  | allocOk fuel r _ ha ih => exact (inv_alloc_ok ih ha).1
  | allocFull fuel r _ ha ih =>
    obtain ⟨-, -, rfl⟩ := alloc_full_iff.mp ha
    exact ih
  | free r _ hr ih => exact inv_free ih hr

/-! ## Runs of calls of `AllocSessionID` -/

theorem okIds_cons_true (r : Nat) (rs : List (Nat × Bool)) :
    okIds ((r, true) :: rs) = r :: okIds rs := by
  simp [okIds]

theorem okIds_cons_false (r : Nat) (rs : List (Nat × Bool)) :
    okIds ((r, false) :: rs) = okIds rs := by
  simp [okIds]

/-- Unfolding of one more call at the front of a run. -/
theorem allocMany_succ_eq_some {fuel n : Nat} {m m' : SessionIDManager}
    {rs : List (Nat × Bool)} (h : allocMany fuel (n + 1) m = some (rs, m')) :
    ∃ r m1 rs1, AllocSessionID fuel m = some (r, m1) ∧
      allocMany fuel n m1 = some (rs1, m') ∧ rs = r :: rs1 := by
  unfold allocMany at h
  cases ha : AllocSessionID fuel m with
  | none => simp [ha] at h
  | some x =>
    obtain ⟨r, m1⟩ := x
    cases hm : allocMany fuel n m1 with
    | none => simp [ha, hm] at h
    | some y =>
      obtain ⟨rs1, m2⟩ := y
      simp only [ha, hm, Option.some.injEq, Prod.mk.injEq] at h
      obtain ⟨rfl, rfl⟩ := h
      exact ⟨r, m1, rs1, rfl, hm, rfl⟩

/-- A run of calls keeps the invariant; the ids it returns successfully are
added to the outstanding ones. -/
theorem inv_allocMany {serverID fuel : Nat} (n : Nat) {m m' : SessionIDManager}
    {out : List Nat} {rs : List (Nat × Bool)} (h : Inv serverID m out)
    (hrun : allocMany fuel n m = some (rs, m')) :
    ∃ out', Inv serverID m' out' ∧ List.Perm out' (okIds rs ++ out) := by
  induction n generalizing m out rs with
  | zero =>
    simp only [allocMany, Option.some.injEq, Prod.mk.injEq] at hrun
    obtain ⟨rfl, rfl⟩ := hrun
    exact ⟨out, h, by simp [okIds]⟩
  | succ n ih =>
    obtain ⟨⟨r, ok⟩, m1, rs1, ha, hm, rfl⟩ := allocMany_succ_eq_some hrun
    cases ok with
    | false =>
      obtain ⟨-, -, rfl⟩ := alloc_full_iff.mp ha
      obtain ⟨out', hinv, hp⟩ := ih h hm
      exact ⟨out', hinv, by rw [okIds_cons_false]; exact hp⟩
    | true =>
      obtain ⟨out', hinv, hp⟩ := ih (inv_alloc_ok h ha).1 hm
      refine ⟨out', hinv, ?_⟩
      rw [okIds_cons_true]
      exact hp.trans List.perm_middle

/-! ## Filling a new manager -/

theorem new_eq_filled (serverID : Nat) : NewSessionIDManager serverID = filled serverID 0 := by
  simp [NewSessionIDManager, filled, BitSet.New, BitSet.ClearAll]

/-- On a manager whose slots `0, ..., k - 1` are taken the scan leaves at slot
`k` after at most two probes. -/
theorem scanLoop_filled (fuel k : Nat) (hk : k < SessionIDMask) :
    scanLoop { length := SessionIDMask, bits := Finset.range k } (fuel + 2) (k - 1) = some k := by
  have hclear : BitSet.Test { length := SessionIDMask, bits := Finset.range k } k = false := by
    simp [BitSet.Test]
  rcases Nat.eq_zero_or_pos k with rfl | hpos
  · unfold scanLoop
    rw [hclear]
    rfl
  · have hset : BitSet.Test { length := SessionIDMask, bits := Finset.range k } (k - 1) = true := by
      simp only [BitSet.Test, ge_iff_le, Finset.mem_range]
      rw [if_neg (by omega)]
      simp only [decide_eq_true_eq]
      omega
    have hstep : scanStep (k - 1) = k := by
      unfold scanStep MaxValidSessionID
      unfold SessionIDMask at *
      have : (k - 1 + 1) % 2 ^ 32 = k := by omega
      rw [this, if_neg (by omega)]
    unfold scanLoop
    rw [hset, if_pos rfl, hstep]
    unfold scanLoop
    rw [hclear]
    rfl

/-- One call on a manager whose slots `0, ..., k - 1` are taken hands out slot `k`. -/
theorem alloc_filled (serverID fuel k : Nat) (hk : k < SessionIDMask) :
    AllocSessionID (fuel + 2) (filled serverID k) =
      some ((((serverID <<< 24) % 2 ^ 32) ||| k, true), filled serverID (k + 1)) := by
  apply alloc_ok_iff.mpr
  refine ⟨(isFull_eq_false_iff _).mpr hk, k, scanLoop_filled fuel k hk, rfl, ?_⟩
  simp only [filled, BitSet.Set, Nat.add_sub_cancel]
  rw [if_neg (by omega), Finset.range_succ, Nat.mod_eq_of_lt]
  unfold SessionIDMask at hk
  omega

/-- The calls on a new manager hand out the slots in increasing order. -/
theorem allocMany_filled (serverID fuel : Nat) (n k : Nat) (hk : k + n ≤ SessionIDMask) :
    allocMany (fuel + 2) n (filled serverID k) =
      some ((List.range' k n).map (fun i => (((serverID <<< 24) % 2 ^ 32) ||| i, true)),
        filled serverID (k + n)) := by
  induction n generalizing k with
  | zero => simp [allocMany]
  | succ n ih =>
    unfold allocMany
    rw [alloc_filled serverID fuel k (by omega)]
    simp only
    rw [ih (k + 1) (by omega), List.range'_succ, List.map_cons]
    simp only [Option.some.injEq, Prod.mk.injEq, true_and]
    congr 1
    omega

/-- Two calls on `NewSessionIDManager 1` lead to the state with slots `0` and
`1` taken and the two ids outstanding. -/
theorem reachable_filled_two : Reachable 1 (filled 1 2) [0x01000001, 0x01000000] := by
  have h0 : Reachable 1 (filled 1 0) [] := new_eq_filled 1 ▸ Reachable.init
  have h1 : Reachable 1 (filled 1 1) [0x01000000] :=
    Reachable.allocOk 2 0x01000000 h0 (alloc_filled 1 0 0 (by decide))
  exact Reachable.allocOk 2 0x01000001 h1 (alloc_filled 1 0 1 (by decide))

/-! ## The states of arbitrary call sequences -/

/-- The shape that no call changes, whatever the arguments of `FreeSessionID`:
the server id, a cursor on a valid slot, a bitmap of `SessionIDMask` bits with
no bit beyond them, and a `count` that fits 32 bits. -/
theorem ReachableAny.shape {serverID : Nat} {m : SessionIDManager}
    (h : ReachableAny serverID m) :
    m.serverID = serverID ∧ m.count < 2 ^ 32 ∧ m.allocIDx ≤ MaxValidSessionID ∧
      m.sessionIDs.length = SessionIDMask ∧ ∀ i ∈ m.sessionIDs.bits, i < SessionIDMask := by
  induction h with
  | init =>
    refine ⟨rfl, by simp [NewSessionIDManager], by simp [NewSessionIDManager], rfl, ?_⟩
    simp [NewSessionIDManager, BitSet.New, BitSet.ClearAll]
  | @alloc m m' fuel res _ ha ih =>
    obtain ⟨hs, hc, hidx, hl, hb⟩ := ih
    obtain ⟨r, ok⟩ := res
    cases ok with
    | false =>
      obtain ⟨-, -, rfl⟩ := alloc_full_iff.mp ha
      exact ⟨hs, hc, hidx, hl, hb⟩
    | true =>
      obtain ⟨-, i, hscan, -, rfl⟩ := alloc_ok_iff.mp ha
      obtain ⟨hi, -⟩ := scanLoop_some hidx hscan
      have hilt : i < SessionIDMask := by
        unfold MaxValidSessionID at hi; unfold SessionIDMask at *; omega
      refine ⟨hs, Nat.mod_lt _ (by norm_num), hi, ?_, ?_⟩
      · show (if i ≥ m.sessionIDs.length then i + 1 else m.sessionIDs.length) = SessionIDMask
        rw [if_neg (by omega), hl]
      · intro j hj
        have hj' : j ∈ insert i m.sessionIDs.bits := hj
        rcases Finset.mem_insert.mp hj' with rfl | hj'
        · exact hilt
        · exact hb j hj'
  | @free m sessionID _ ih =>
    obtain ⟨hs, hc, hidx, hl, hb⟩ := ih
    refine ⟨hs, Nat.mod_lt _ (by norm_num), hidx, ?_, ?_⟩
    · show (m.sessionIDs.Clear (sessionID &&& SessionIDMask)).length = SessionIDMask
      unfold BitSet.Clear
      split
      · exact hl
      · exact hl
    · intro j hj
      have hj' : j ∈ (m.sessionIDs.Clear (sessionID &&& SessionIDMask)).bits := hj
      unfold BitSet.Clear at hj'
      split at hj'
      · exact hb j hj'
      · exact hb j (Finset.mem_of_mem_erase hj')

/-- Every state that calls with any arguments lead to, on a manager created
with a `uint8` server id, is well-formed. -/
theorem ReachableAny.wellFormed {serverID : Nat} {m : SessionIDManager}
    (hs : serverID < 256) (h : ReachableAny serverID m) : WellFormed m := by
  obtain ⟨hsid, hc, hidx, hl, hb⟩ := h.shape
  exact ⟨hsid ▸ hs, hc, hidx, hl, hb⟩

/-! ## The claims -/

/-- C1: in every state reached from `NewSessionIDManager serverID` by calls of
`AllocSessionID` and calls of `FreeSessionID` on outstanding ids, a successful
`AllocSessionID` returns an id whose low 24 bits differ from the low 24 bits
of every outstanding id; and the ids returned successfully by any number of
calls of `AllocSessionID` in a row are pairwise distinct (so are their low 24
bits). -/
theorem alloc_unique_among_outstanding (serverID : Nat) (m : SessionIDManager)
    (out : List Nat) (h : Reachable serverID m out) :
    (∀ fuel r m', AllocSessionID fuel m = some ((r, true), m') →
      ∀ q ∈ out, r &&& SessionIDMask ≠ q &&& SessionIDMask) ∧
    (∀ fuel n rs m', allocMany fuel n m = some (rs, m') →
      (okIds rs).Nodup ∧ ((okIds rs).map (fun r => r &&& SessionIDMask)).Nodup) := by
  constructor
  · intro fuel r m' ha q hq he
    have he' : slotOf r = slotOf q := he
    exact (inv_alloc_ok h.inv ha).2 (he' ▸ List.mem_map_of_mem slotOf hq)
  · intro fuel n rs m' hrun
    obtain ⟨out', hinv, hp⟩ := inv_allocMany n h.inv hrun
    have hnd : ((okIds rs ++ out).map slotOf).Nodup :=
      (hp.map slotOf).nodup_iff.mp hinv.2.2.2.1
    rw [List.map_append] at hnd
    have hslots : ((okIds rs).map slotOf).Nodup := (List.nodup_append.mp hnd).1
    exact ⟨hslots.of_map, hslots⟩

/-- C1 at a concrete state: after two calls on `NewSessionIDManager 1` the third
call returns `0x01000002`, whose slot is the slot of neither outstanding id. -/
theorem alloc_unique_among_outstanding_witness :
    Reachable 1 (filled 1 2) [0x01000001, 0x01000000] ∧
    AllocSessionID 2 (filled 1 2) = some ((0x01000002, true), filled 1 3) ∧
    ∀ q ∈ [0x01000001, 0x01000000], 0x01000002 &&& SessionIDMask ≠ q &&& SessionIDMask :=
  ⟨reachable_filled_two, alloc_filled 1 0 2 (by decide),
    (alloc_unique_among_outstanding 1 (filled 1 2) [0x01000001, 0x01000000]
      reachable_filled_two).1 2 0x01000002 (filled 1 3) (alloc_filled 1 0 2 (by decide))⟩

/-- C2: a successful `AllocSessionID` in a well-formed state of a manager
with server id `serverID` sets the bit of a slot that was clear and returns
`r` with `r >> 24 = serverID` and `r & 0x00FFFFFF` that slot, that is
`r = (serverID << 24) | slot`; the first call on a new manager returns
`(serverID << 24, true)`, whose low 24 bits are `0`, and for `serverID = 7`
this is `0x07000000`. -/
theorem alloc_encoding (serverID : Nat) (hs : serverID < 256) :
    (∀ m fuel r m', WellFormed m → m.serverID = serverID →
      AllocSessionID fuel m = some ((r, true), m') →
      ∃ slot, m.sessionIDs.Test slot = false ∧ m'.sessionIDs = m.sessionIDs.Set slot ∧
        m'.sessionIDs.Test slot = true ∧
        r >>> 24 = serverID ∧ r &&& 0x00FFFFFF = slot ∧ r = (serverID <<< 24) ||| slot) ∧
    (∀ fuel, (AllocSessionID (fuel + 1) (NewSessionIDManager serverID)).map (fun x => x.1) =
        some (serverID <<< 24, true) ∧
      (serverID <<< 24) >>> 24 = serverID ∧ (serverID <<< 24) &&& 0x00FFFFFF = 0) ∧
    (serverID = 7 → serverID <<< 24 = 0x07000000) := by
  have hshift : (serverID <<< 24) % 2 ^ 32 = serverID <<< 24 := by
    rw [Nat.shiftLeft_eq]
    omega
  refine ⟨?_, ?_, ?_⟩
  · rintro m fuel r m' ⟨-, -, hidx, hl, -⟩ rfl ha
    obtain ⟨-, i, hscan, rfl, rfl⟩ := alloc_ok_iff.mp ha
    obtain ⟨hi, ht⟩ := scanLoop_some hidx hscan
    refine ⟨i, ht, rfl, ?_, shiftRight_compose _ _ hs hi, slotOf_compose _ _ hi, ?_⟩
    · show (m.sessionIDs.Set i).Test i = true
      have : i < m.sessionIDs.length := by
        rw [hl]; unfold MaxValidSessionID at hi; unfold SessionIDMask at *; omega
      simp only [BitSet.Test, BitSet.Set, ge_iff_le]
      rw [if_neg (show ¬ m.sessionIDs.length ≤ i by omega),
        if_neg (show ¬ m.sessionIDs.length ≤ i by omega)]
      simp
    · rw [hshift]
  · intro fuel
    refine ⟨?_, ?_, ?_⟩
    · have h := alloc_ok_iff.mpr (show isFull (NewSessionIDManager serverID) = false ∧ _ from
        ⟨rfl, 0, (rfl : scanLoop (NewSessionIDManager serverID).sessionIDs (fuel + 1) 0 = some 0),
          rfl, rfl⟩)
      rw [h]
      show some (((serverID <<< 24) % 2 ^ 32) ||| 0, true) = _
      rw [hshift, Nat.or_zero]
    · rw [Nat.shiftRight_eq_div_pow, Nat.shiftLeft_eq]
      omega
    · have := slotOf_eq_mod (serverID <<< 24)
      unfold slotOf SessionIDMask at this
      rw [this, Nat.shiftLeft_eq]
      omega
  · rintro rfl
    rfl

/-- C2 at `serverID = 7`: the third call on a new manager returns
`0x07000002 = (7 << 24) | 2`. -/
theorem alloc_encoding_witness :
    7 < 256 ∧ WellFormed (filled 7 2) ∧
    AllocSessionID 2 (filled 7 2) = some ((0x07000002, true), filled 7 3) ∧
    ∃ slot, (filled 7 2).sessionIDs.Test slot = false ∧
      (filled 7 3).sessionIDs = (filled 7 2).sessionIDs.Set slot ∧
      (filled 7 3).sessionIDs.Test slot = true ∧
      0x07000002 >>> 24 = 7 ∧ 0x07000002 &&& 0x00FFFFFF = slot ∧
      0x07000002 = (7 <<< 24) ||| slot :=
  ⟨by decide, by decide, alloc_filled 7 0 2 (by decide),
    (alloc_encoding 7 (by decide)).1 (filled 7 2) 2 0x07000002 (filled 7 3) (by decide) rfl
      (alloc_filled 7 0 2 (by decide))⟩

/-- C3: on `NewSessionIDManager serverID`, with no `FreeSessionID`, the first
16,777,215 (`SessionIDMask`) calls of `AllocSessionID` all return, with
`ok = true` (a probe budget of two is enough for each), and the next call
returns `(0x00FFFFFF, false)`. -/
theorem exhaustion_after_mask_calls (serverID fuel : Nat) :
    ∃ rs m, allocMany (fuel + 2) 16777215 (NewSessionIDManager serverID) = some (rs, m) ∧
      rs.length = 16777215 ∧ (∀ x ∈ rs, x.2 = true) ∧
      AllocSessionID (fuel + 2) m = some ((0x00FFFFFF, false), m) ∧
      SessionIDMask = 16777215 ∧ MaxValidSessionID + 1 = 16777215 := by
  have hrun := allocMany_filled serverID fuel SessionIDMask 0 (by omega)
  rw [← new_eq_filled] at hrun
  refine ⟨_, _, hrun, ?_, ?_, ?_, rfl, rfl⟩
  · rw [List.length_map, List.length_range']
    rfl
  · intro x hx
    rw [List.mem_map] at hx
    obtain ⟨i, -, rfl⟩ := hx
    rfl
  · apply alloc_full_iff.mpr
    refine ⟨?_, rfl, rfl⟩
    rw [isFull_eq_true_iff]
    simp [filled]

/-- C4: `AllocSessionID` returns `ok = false` exactly when `IsFull` is true
before the call, that is when `count >= SessionIDMask`; then the returned
value is the mask `0x00FFFFFF` itself and the state after the call is the
state before it. -/
theorem alloc_fails_iff_full (m : SessionIDManager) (fuel : Nat) :
    ((∃ r m', AllocSessionID fuel m = some ((r, false), m')) ↔ IsFull m = true) ∧
    (IsFull m = true ↔ m.count ≥ SessionIDMask) ∧
    (∀ r m', AllocSessionID fuel m = some ((r, false), m') → r = 0x00FFFFFF ∧ m' = m) ∧
    (IsFull m = true → AllocSessionID fuel m = some ((0x00FFFFFF, false), m)) := by
  refine ⟨⟨?_, ?_⟩, isFull_eq_true_iff m, ?_, ?_⟩
  · rintro ⟨r, m', h⟩
    exact (alloc_full_iff.mp h).1
  · intro h
    exact ⟨SessionIDMask, m, alloc_full_iff.mpr ⟨h, rfl, rfl⟩⟩
  · intro r m' h
    exact (alloc_full_iff.mp h).2
  · intro h
    exact alloc_full_iff.mpr ⟨h, rfl, rfl⟩

/-- C4 on the full state that `SessionIDMask` calls on `NewSessionIDManager 1`
lead to: `IsFull` is true and `AllocSessionID` returns `(0x00FFFFFF, false)`
without any probe and without a change of the state. -/
theorem alloc_fails_iff_full_witness :
    IsFull (filled 1 SessionIDMask) = true ∧
    AllocSessionID 0 (filled 1 SessionIDMask) =
      some ((0x00FFFFFF, false), filled 1 SessionIDMask) :=
  ⟨by decide, (alloc_fails_iff_full (filled 1 SessionIDMask) 0).2.2.2 (by decide)⟩

/-- C5: in every state reached from `NewSessionIDManager serverID` by calls of
`AllocSessionID` and calls of `FreeSessionID` on outstanding ids, `count` is
the number of set bits of the bitmap, which is the number of outstanding ids,
and `0 <= count <= SessionIDMask`. -/
theorem count_invariant (serverID : Nat) (m : SessionIDManager) (out : List Nat)
    (h : Reachable serverID m out) :
    m.count = m.sessionIDs.Count ∧ m.sessionIDs.Count = out.length ∧
      0 ≤ m.count ∧ m.count ≤ SessionIDMask := by
  have hinv := h.inv
  have hc := hinv.count_eq_card
  have hl := hinv.length_le
  have hcount : m.count = out.length := hinv.2.2.2.2.2.1
  exact ⟨hc, by rw [← hc, hcount], Nat.zero_le _, by rw [hcount]; exact hl⟩

/-- C5 after two calls on `NewSessionIDManager 1`: two bits set, two ids
outstanding, `count = 2`. -/
theorem count_invariant_witness :
    Reachable 1 (filled 1 2) [0x01000001, 0x01000000] ∧
    (filled 1 2).count = (filled 1 2).sessionIDs.Count ∧
    (filled 1 2).sessionIDs.Count = [0x01000001, 0x01000000].length ∧
    0 ≤ (filled 1 2).count ∧ (filled 1 2).count ≤ SessionIDMask :=
  ⟨reachable_filled_two,
    count_invariant 1 (filled 1 2) [0x01000001, 0x01000000] reachable_filled_two⟩

/-- C6 fails: after one call of `AllocSessionID` on `NewSessionIDManager 1` and
the release of the id it returned, `count` and the number of set bits are both
`0`; a second release of the same id, whose bit is clear, still decrements
`count`, to `4294967295`, while no bit is set. -/
theorem free_invalid_release_counterexample :
    AllocSessionID 2 (NewSessionIDManager 1) = some ((0x01000000, true), filled 1 1) ∧
    (FreeSessionID (filled 1 1) 0x01000000).count =
      (FreeSessionID (filled 1 1) 0x01000000).sessionIDs.Count ∧
    (FreeSessionID (filled 1 1) 0x01000000).sessionIDs.Test (0x01000000 &&& SessionIDMask)
      = false ∧
    (FreeSessionID (FreeSessionID (filled 1 1) 0x01000000) 0x01000000).count = 4294967295 ∧
    (FreeSessionID (FreeSessionID (filled 1 1) 0x01000000) 0x01000000).sessionIDs.Count = 0 ∧
    (FreeSessionID (FreeSessionID (filled 1 1) 0x01000000) 0x01000000).count ≠
      (FreeSessionID (FreeSessionID (filled 1 1) 0x01000000) 0x01000000).sessionIDs.Count :=
  ⟨new_eq_filled 1 ▸ alloc_filled 1 0 0 (by decide), by decide, by decide, by decide,
    by decide, by decide⟩

/-- C6 as amended: `FreeSessionID` does not look at the bit before it clears
it. In a state in which `count` is the number of set bits, a release of an id
whose slot bit is set keeps `count` equal to the number of set bits (both go
down by one); a release of an id whose slot bit is clear leaves the bitmap as
it is and still decrements `count` by one modulo `2 ^ 32`, so that `count` is
no longer the number of set bits. -/
theorem free_count_amended (m : SessionIDManager) (sessionID : Nat)
    (hc : m.count = m.sessionIDs.Count) (hlt : m.count < 2 ^ 32) :
    (m.sessionIDs.Test (sessionID &&& SessionIDMask) = true →
      (FreeSessionID m sessionID).count = (FreeSessionID m sessionID).sessionIDs.Count ∧
      (FreeSessionID m sessionID).count + 1 = m.count) ∧
    (m.sessionIDs.Test (sessionID &&& SessionIDMask) = false →
      (FreeSessionID m sessionID).sessionIDs = m.sessionIDs ∧
      (FreeSessionID m sessionID).count = (m.count + 2 ^ 32 - 1) % 2 ^ 32 ∧
      (FreeSessionID m sessionID).count ≠ (FreeSessionID m sessionID).sessionIDs.Count) := by
  constructor
  · intro ht
    unfold BitSet.Test at ht
    split at ht
    · exact absurd ht (by simp)
    · rename_i hlen
      have hmem : sessionID &&& SessionIDMask ∈ m.sessionIDs.bits := by simpa using ht
      have hpos : 0 < m.sessionIDs.bits.card := Finset.card_pos.mpr ⟨_, hmem⟩
      have hcard : (FreeSessionID m sessionID).sessionIDs.Count = m.sessionIDs.bits.card - 1 := by
        show (m.sessionIDs.Clear (sessionID &&& SessionIDMask)).bits.card = _
        unfold BitSet.Clear
        rw [if_neg hlen]
        exact Finset.card_erase_of_mem hmem
      have hcount : (FreeSessionID m sessionID).count = (m.count + 2 ^ 32 - 1) % 2 ^ 32 := rfl
      unfold BitSet.Count at hc
      rw [hcard, hcount]
      omega
  · intro ht
    have hsame : (FreeSessionID m sessionID).sessionIDs = m.sessionIDs := by
      show m.sessionIDs.Clear (sessionID &&& SessionIDMask) = m.sessionIDs
      unfold BitSet.Test at ht
      unfold BitSet.Clear
      split at ht
      · rename_i hlen
        rw [if_pos hlen]
      · rename_i hlen
        rw [if_neg hlen, Finset.erase_eq_of_not_mem (by simpa using ht)]
    have hcount : (FreeSessionID m sessionID).count = (m.count + 2 ^ 32 - 1) % 2 ^ 32 := rfl
    refine ⟨hsame, hcount, ?_⟩
    rw [hsame, hcount, ← hc]
    omega

/-- C6 as amended, on the state after one call of `AllocSessionID` on
`NewSessionIDManager 1`: the release of the id keeps `count` equal to the
number of set bits. -/
theorem free_count_amended_witness :
    (filled 1 1).count = (filled 1 1).sessionIDs.Count ∧ (filled 1 1).count < 2 ^ 32 ∧
    (filled 1 1).sessionIDs.Test (0x01000000 &&& SessionIDMask) = true ∧
    (FreeSessionID (filled 1 1) 0x01000000).count =
      (FreeSessionID (filled 1 1) 0x01000000).sessionIDs.Count ∧
    (FreeSessionID (filled 1 1) 0x01000000).count + 1 = (filled 1 1).count :=
  ⟨by decide, by decide, by decide,
    (free_count_amended (filled 1 1) 0x01000000 (by decide) (by decide)).1 (by decide)⟩

/-- C7 fails: on `NewSessionIDManager 1` the first two calls return
`0x01000000` and `0x01000001`, and after `FreeSessionID(0x01000000)` no call
of `AllocSessionID`, whatever its probe budget, returns `(0x01000000, true)`. -/
theorem reuse_scenario_counterexample :
    AllocSessionID 2 (NewSessionIDManager 1) = some ((0x01000000, true), filled 1 1) ∧
    AllocSessionID 2 (filled 1 1) = some ((0x01000001, true), filled 1 2) ∧
    ∀ fuel, (AllocSessionID fuel (FreeSessionID (filled 1 2) 0x01000000)).map (fun x => x.1) ≠
      some (0x01000000, true) := by
  refine ⟨new_eq_filled 1 ▸ alloc_filled 1 0 0 (by decide), alloc_filled 1 0 1 (by decide), ?_⟩
  intro fuel
  match fuel with
  | 0 => decide
  | 1 => decide
  | n + 2 =>
    have hscan : scanLoop (FreeSessionID (filled 1 2) 0x01000000).sessionIDs (2 + n)
        (FreeSessionID (filled 1 2) 0x01000000).allocIDx = some 2 :=
      scanLoop_mono n (by decide)
    rw [Nat.add_comm] at hscan
    have h := alloc_ok_iff.mpr ⟨(by decide : isFull (FreeSessionID (filled 1 2) 0x01000000) = false),
      2, hscan, rfl, rfl⟩
    rw [h]
    decide

/-- C7 as amended: on `NewSessionIDManager 1` the first two calls return
`(0x01000000, true)` and `(0x01000001, true)`, and after
`FreeSessionID(0x01000000)` the next call returns `(0x01000002, true)`: the
scan starts at the cursor, slot 1, and goes upwards, so the slot just released
is not the one handed out; it stays clear. -/
theorem reuse_scenario_amended (fuel : Nat) :
    AllocSessionID (fuel + 2) (NewSessionIDManager 1) = some ((0x01000000, true), filled 1 1) ∧
    AllocSessionID (fuel + 2) (filled 1 1) = some ((0x01000001, true), filled 1 2) ∧
    (FreeSessionID (filled 1 2) 0x01000000).allocIDx = 1 ∧
    ∃ m', AllocSessionID (fuel + 2) (FreeSessionID (filled 1 2) 0x01000000) =
        some ((0x01000002, true), m') ∧
      m'.sessionIDs.Test 0 = false ∧ m'.sessionIDs.Test 1 = true ∧
      m'.sessionIDs.Test 2 = true ∧ m'.count = 2 ∧ m'.allocIDx = 2 := by
  refine ⟨new_eq_filled 1 ▸ alloc_filled 1 fuel 0 (by decide), alloc_filled 1 fuel 1 (by decide),
    rfl, ?_⟩
  have hscan : scanLoop (FreeSessionID (filled 1 2) 0x01000000).sessionIDs (2 + fuel)
      (FreeSessionID (filled 1 2) 0x01000000).allocIDx = some 2 :=
    scanLoop_mono fuel (by decide)
  rw [Nat.add_comm] at hscan
  have h := alloc_ok_iff.mpr ⟨(by decide : isFull (FreeSessionID (filled 1 2) 0x01000000) = false),
    2, hscan, rfl, rfl⟩
  exact ⟨_, h, by decide, by decide, by decide, by decide, rfl⟩

/-- C8: in a well-formed state that is not full, when `AllocSessionID` returns
`(r, true)`, a call of `FreeSessionID(r)` right after it restores `count` and
the whole bitmap (the server id is never touched; the cursor is where the
scan left it). -/
theorem alloc_free_roundtrip (m m' : SessionIDManager) (fuel r : Nat) (hwf : WellFormed m)
    (hnf : IsFull m = false) (ha : AllocSessionID fuel m = some ((r, true), m')) :
    (FreeSessionID m' r).count = m.count ∧ (FreeSessionID m' r).sessionIDs = m.sessionIDs ∧
      (FreeSessionID m' r).serverID = m.serverID ∧
      (FreeSessionID m' r).allocIDx = r &&& SessionIDMask := by
  obtain ⟨-, -, hidx, hl, -⟩ := hwf
  obtain ⟨-, i, hscan, rfl, rfl⟩ := alloc_ok_iff.mp ha
  obtain ⟨hi, ht⟩ := scanLoop_some hidx hscan
  have hislot : (((m.serverID <<< 24) % 2 ^ 32) ||| i) &&& SessionIDMask = i :=
    slotOf_compose _ _ hi
  have hilt : ¬ (i ≥ m.sessionIDs.length) := by
    rw [hl]; unfold MaxValidSessionID at hi; unfold SessionIDMask at *; omega
  have hnot : i ∉ m.sessionIDs.bits := by
    unfold BitSet.Test at ht
    rw [if_neg hilt] at ht
    simpa using ht
  have hcount : m.count < SessionIDMask := (isFull_eq_false_iff m).mp hnf
  refine ⟨?_, ?_, rfl, ?_⟩
  · show ((m.count + 1) % 2 ^ 32 + 2 ^ 32 - 1) % 2 ^ 32 = m.count
    unfold SessionIDMask at hcount
    omega
  · show (m.sessionIDs.Set i).Clear
      ((((m.serverID <<< 24) % 2 ^ 32) ||| i) &&& SessionIDMask) = m.sessionIDs
    rw [hislot]
    unfold BitSet.Set BitSet.Clear
    simp only [if_neg hilt, Finset.erase_insert hnot]
  · show i = _
    rw [hislot]

/-- C8 on the state after two calls on `NewSessionIDManager 1`: the third call
returns `0x01000002`, and its release gives back `count = 2` and the bitmap
with slots `0` and `1`. -/
theorem alloc_free_roundtrip_witness :
    WellFormed (filled 1 2) ∧ IsFull (filled 1 2) = false ∧
    AllocSessionID 2 (filled 1 2) = some ((0x01000002, true), filled 1 3) ∧
    (FreeSessionID (filled 1 3) 0x01000002).count = (filled 1 2).count ∧
    (FreeSessionID (filled 1 3) 0x01000002).sessionIDs = (filled 1 2).sessionIDs ∧
    (FreeSessionID (filled 1 3) 0x01000002).serverID = (filled 1 2).serverID ∧
    (FreeSessionID (filled 1 3) 0x01000002).allocIDx = 0x01000002 &&& SessionIDMask :=
  ⟨by decide, by decide, alloc_filled 1 0 2 (by decide),
    alloc_free_roundtrip (filled 1 2) (filled 1 3) 2 0x01000002 (by decide) (by decide)
      (alloc_filled 1 0 2 (by decide))⟩

/-- C9: `FreeSessionID(id)` uses only the low 24 bits of `id` and touches only
that slot: afterwards the bit at `id & 0x00FFFFFF` is clear, `count` is one
less modulo `2 ^ 32`, every other bit, the length of the bitmap, the cursor
and the server id are as before; two ids with the same low 24 bits lead to the
same state. -/
theorem free_frame (m : SessionIDManager) (sessionID : Nat) :
    (FreeSessionID m sessionID).sessionIDs.Test (sessionID &&& 0x00FFFFFF) = false ∧
    (FreeSessionID m sessionID).count = (m.count + 2 ^ 32 - 1) % 2 ^ 32 ∧
    (m.count < 2 ^ 32 → ((FreeSessionID m sessionID).count + 1) % 2 ^ 32 = m.count) ∧
    (∀ j, j ≠ sessionID &&& 0x00FFFFFF →
      (FreeSessionID m sessionID).sessionIDs.Test j = m.sessionIDs.Test j) ∧
    (FreeSessionID m sessionID).sessionIDs.length = m.sessionIDs.length ∧
    (FreeSessionID m sessionID).allocIDx = m.allocIDx ∧
    (FreeSessionID m sessionID).serverID = m.serverID ∧
    (∀ other, other &&& 0x00FFFFFF = sessionID &&& 0x00FFFFFF →
      FreeSessionID m other = FreeSessionID m sessionID) := by
  have hbits : (FreeSessionID m sessionID).sessionIDs =
      m.sessionIDs.Clear (sessionID &&& 0x00FFFFFF) := rfl
  refine ⟨?_, rfl, ?_, ?_, ?_, rfl, rfl, ?_⟩
  · rw [hbits]
    unfold BitSet.Clear BitSet.Test
    by_cases hlen : sessionID &&& 0x00FFFFFF ≥ m.sessionIDs.length
    · simp [hlen]
    · simp [hlen]
  · intro hlt
    show ((m.count + 2 ^ 32 - 1) % 2 ^ 32 + 1) % 2 ^ 32 = m.count
    omega
  · intro j hj
    rw [hbits]
    unfold BitSet.Clear BitSet.Test
    by_cases hlen : sessionID &&& 0x00FFFFFF ≥ m.sessionIDs.length
    · simp [hlen]
    · simp [hlen, Finset.mem_erase, hj]
  · rw [hbits]
    unfold BitSet.Clear
    split <;> rfl
  · intro other ho
    unfold FreeSessionID
    have ho' : other &&& SessionIDMask = sessionID &&& SessionIDMask := ho
    rw [ho']

/-- C9 on the state after two calls on `NewSessionIDManager 1`: the ids
`0x01000000` and `0xFF000000` both name slot `0` and their release leads to
the same state; `count` goes from `2` to `1`. -/
theorem free_frame_witness :
    (filled 1 2).count < 2 ^ 32 ∧ 0xFF000000 &&& 0x00FFFFFF = 0x01000000 &&& 0x00FFFFFF ∧
    ((FreeSessionID (filled 1 2) 0x01000000).count + 1) % 2 ^ 32 = (filled 1 2).count ∧
    FreeSessionID (filled 1 2) 0xFF000000 = FreeSessionID (filled 1 2) 0x01000000 ∧
    (1 ≠ 0x01000000 &&& 0x00FFFFFF ∧
      (FreeSessionID (filled 1 2) 0x01000000).sessionIDs.Test 1 = (filled 1 2).sessionIDs.Test 1) :=
  ⟨by decide, by decide, (free_frame (filled 1 2) 0x01000000).2.2.1 (by decide),
    (free_frame (filled 1 2) 0x01000000).2.2.2.2.2.2.2 0xFF000000 (by decide),
    by decide, (free_frame (filled 1 2) 0x01000000).2.2.2.1 1 (by decide)⟩

/-- C10: in every state reached from `NewSessionIDManager serverID` by calls
of `AllocSessionID` and `FreeSessionID` with any arguments, a successful
`AllocSessionID` returns an id whose low 24 bits are at most
`MaxValidSessionID = 0x00FFFFFE`: slot `0x00FFFFFF` is never handed out, and
the id is never the failure value `SessionIDMask`, for every `serverID`. -/
theorem alloc_never_returns_mask (serverID : Nat) (m m' : SessionIDManager) (fuel r : Nat)
    (h : ReachableAny serverID m) (ha : AllocSessionID fuel m = some ((r, true), m')) :
    r &&& 0x00FFFFFF ≤ MaxValidSessionID ∧ MaxValidSessionID = 0x00FFFFFE ∧
      r &&& 0x00FFFFFF ≠ 0x00FFFFFF ∧ r ≠ SessionIDMask := by
  obtain ⟨-, -, hidx, -, -⟩ := h.shape
  obtain ⟨-, i, hscan, rfl, -⟩ := alloc_ok_iff.mp ha
  obtain ⟨hi, -⟩ := scanLoop_some hidx hscan
  have hislot : (((m.serverID <<< 24) % 2 ^ 32) ||| i) &&& 0x00FFFFFF = i :=
    slotOf_compose _ _ hi
  have hmax : MaxValidSessionID = 0x00FFFFFE := rfl
  refine ⟨by rw [hislot]; exact hi, hmax, by rw [hislot]; omega, ?_⟩
  intro he
  rw [he] at hislot
  have : SessionIDMask &&& 0x00FFFFFF = 0x00FFFFFF := by decide
  omega

/-- C10 for `serverID = 0`: the first call on `NewSessionIDManager 0` returns
the id `0`, which is not the failure value. -/
theorem alloc_never_returns_mask_witness :
    ReachableAny 0 (NewSessionIDManager 0) ∧
    AllocSessionID 2 (NewSessionIDManager 0) = some ((0, true), filled 0 1) ∧
    0 &&& 0x00FFFFFF ≤ MaxValidSessionID ∧ MaxValidSessionID = 0x00FFFFFE ∧
    0 &&& 0x00FFFFFF ≠ 0x00FFFFFF ∧ 0 ≠ SessionIDMask :=
  ⟨ReachableAny.init, new_eq_filled 0 ▸ alloc_filled 0 0 0 (by decide),
    alloc_never_returns_mask 0 (NewSessionIDManager 0) (filled 0 1) 2 0 ReachableAny.init
      (new_eq_filled 0 ▸ alloc_filled 0 0 0 (by decide))⟩

/-! ## The scan in the cyclic order -/

/-- The scan step moves one slot up below `MaxValidSessionID`. -/
theorem scanStep_lt {a : Nat} (h : a < MaxValidSessionID) : scanStep a = a + 1 := by
  unfold scanStep
  rw [MaxValidSessionID_eq] at *
  have : (a + 1) % 2 ^ 32 = a + 1 := by omega
  rw [this, if_neg (by omega)]

/-- The scan step wraps from `MaxValidSessionID` to `0`. -/
theorem scanStep_max : scanStep MaxValidSessionID = 0 := by
  decide

/-- A scan that meets set bits from `c` up to a clear slot `s` leaves at `s`
after `s - c + 1` probes. -/
theorem scanLoop_upto (b : BitSet) (d c s k : Nat) (hd : s = c + d)
    (hs : s ≤ MaxValidSessionID) (hclear : b.Test s = false)
    (hset : ∀ i < s, c ≤ i → b.Test i = true) :
    scanLoop b (d + 1 + k) c = some s := by
  induction d generalizing c with
  | zero =>
    have hcs : c = s := by omega
    subst hcs
    rw [show 0 + 1 + k = k + 1 by omega]
    unfold scanLoop
    rw [hclear]
    rfl
  | succ d ih =>
    rw [show d + 1 + 1 + k = (d + 1 + k) + 1 by omega]
    unfold scanLoop
    rw [hset c (by omega) (Nat.le_refl c), if_pos rfl, scanStep_lt (by omega)]
    exact ih (c + 1) (by omega) (fun i hi hci => hset i hi (by omega))

/-- A scan that meets set bits from `c` up to `MaxValidSessionID` and then from
`0` up to a clear slot `s` leaves at `s`. -/
theorem scanLoop_wrap (b : BitSet) (d c s k : Nat) (hd : MaxValidSessionID = c + d)
    (hclear : b.Test s = false) (hs : s ≤ MaxValidSessionID)
    (hhigh : ∀ i ≤ MaxValidSessionID, c ≤ i → b.Test i = true)
    (hlow : ∀ i < s, b.Test i = true) :
    scanLoop b ((d + 1) + (s + 1 + k)) c = some s := by
  induction d generalizing c with
  | zero =>
    have hc : c = MaxValidSessionID := by omega
    subst hc
    rw [show (0 + 1) + (s + 1 + k) = (s + 1 + k) + 1 by omega]
    unfold scanLoop
    rw [hhigh _ (Nat.le_refl _) (Nat.le_refl _), if_pos rfl, scanStep_max]
    exact scanLoop_upto b s 0 s k (by omega) hs hclear (fun i hi _ => hlow i hi)
  | succ d ih =>
    rw [show (d + 1 + 1) + (s + 1 + k) = ((d + 1) + (s + 1 + k)) + 1 by omega]
    unfold scanLoop
    rw [hhigh c (by omega) (Nat.le_refl c), if_pos rfl, scanStep_lt (by omega)]
    exact ih (c + 1) (by omega) (fun i hi hci => hhigh i hi (by omega))

/-- From a cursor on a valid slot the scan leaves at the first clear slot of
the cyclic order after at most `SessionIDMask` probes. -/
theorem scanLoop_firstClear {b : BitSet} {c s : Nat} (hc : c ≤ MaxValidSessionID)
    (h : IsFirstClear b c s) (k : Nat) : scanLoop b (SessionIDMask + k) c = some s := by
  obtain ⟨hs, hclear, hcase⟩ := h
  have hmask : SessionIDMask = MaxValidSessionID + 1 := rfl
  rcases hcase with ⟨hcs, hset⟩ | ⟨hsc, hhigh, hlow⟩
  · have h1 := scanLoop_upto b (s - c) c s (SessionIDMask - (s - c + 1) + k) (by omega)
      hs hclear hset
    rw [show s - c + 1 + (SessionIDMask - (s - c + 1) + k) = SessionIDMask + k by omega] at h1
    exact h1
  · have h1 := scanLoop_wrap b (MaxValidSessionID - c) c s
      (SessionIDMask - (MaxValidSessionID - c + 1 + (s + 1)) + k) (by omega) hclear hs hhigh hlow
    rw [show MaxValidSessionID - c + 1 +
      (s + 1 + (SessionIDMask - (MaxValidSessionID - c + 1 + (s + 1)) + k)) =
      SessionIDMask + k by omega] at h1
    exact h1

/-- When some valid slot is clear there is a first clear slot in the cyclic
order from any cursor. -/
theorem exists_firstClear (b : BitSet) (c : Nat)
    (h : ∃ t, t ≤ MaxValidSessionID ∧ b.Test t = false) : ∃ s, IsFirstClear b c s := by
  by_cases hup : ∃ i, c ≤ i ∧ i ≤ MaxValidSessionID ∧ b.Test i = false
  · classical
    refine ⟨Nat.find hup, (Nat.find_spec hup).2.1, (Nat.find_spec hup).2.2,
      Or.inl ⟨(Nat.find_spec hup).1, ?_⟩⟩
    intro i hi hci
    have hmin := Nat.find_min hup hi
    have hle : i ≤ MaxValidSessionID := Nat.le_trans (Nat.le_of_lt hi) (Nat.find_spec hup).2.1
    cases ht : b.Test i with
    | true => rfl
    | false => exact absurd ⟨hci, hle, ht⟩ hmin
  · have hhigh : ∀ i ≤ MaxValidSessionID, c ≤ i → b.Test i = true := by
      intro i hi hci
      cases ht : b.Test i with
      | true => rfl
      | false => exact absurd ⟨i, hci, hi, ht⟩ hup
    have hany : ∃ i, b.Test i = false := by
      obtain ⟨t, -, ht⟩ := h
      exact ⟨t, ht⟩
    classical
    obtain ⟨t, htle, ht⟩ := h
    have hfs : Nat.find hany ≤ t := Nat.find_min' hany ht
    have htc : t < c := by
      by_contra hnot
      have := hhigh t htle (by omega)
      rw [ht] at this
      exact absurd this (by simp)
    refine ⟨Nat.find hany, by omega, Nat.find_spec hany, Or.inr ⟨by omega, hhigh, ?_⟩⟩
    intro i hi
    have hmin := Nat.find_min hany hi
    cases hti : b.Test i with
    | true => rfl
    | false => exact absurd hti hmin

/-- When every valid slot is set, a scan from a valid slot never leaves. -/
theorem scanLoop_all_set (b : BitSet) (fuel c : Nat) (hc : c ≤ MaxValidSessionID)
    (hall : ∀ i ≤ MaxValidSessionID, b.Test i = true) : scanLoop b fuel c = none := by
  induction fuel generalizing c with
  | zero => rfl
  | succ n ih =>
    unfold scanLoop
    rw [hall c hc, if_pos rfl]
    exact ih _ (scanStep_le c)

/-! ## Bits after `Set` and `Clear` -/

theorem test_set_self (b : BitSet) (s : Nat) (h : s < b.length) : (b.Set s).Test s = true := by
  simp only [BitSet.Test, BitSet.Set, ge_iff_le]
  rw [if_neg (show ¬ b.length ≤ s by omega), if_neg (show ¬ b.length ≤ s by omega)]
  simp

theorem test_set_of_ne (b : BitSet) (s j : Nat) (h : s < b.length) (hj : j ≠ s) :
    (b.Set s).Test j = b.Test j := by
  simp only [BitSet.Test, BitSet.Set, ge_iff_le]
  rw [if_neg (show ¬ b.length ≤ s by omega)]
  simp [Finset.mem_insert, hj]

theorem test_clear_self (b : BitSet) (i : Nat) : (b.Clear i).Test i = false := by
  unfold BitSet.Clear BitSet.Test
  by_cases hlen : i ≥ b.length
  · simp [hlen]
  · simp [hlen]

theorem test_clear_of_ne (b : BitSet) (i j : Nat) (hj : j ≠ i) :
    (b.Clear i).Test j = b.Test j := by
  unfold BitSet.Clear BitSet.Test
  by_cases hlen : i ≥ b.length
  · simp [hlen]
  · simp [hlen, Finset.mem_erase, hj]

/-- A bitmap of `SessionIDMask` bits with fewer than `SessionIDMask` set bits
has a clear valid slot. -/
theorem exists_clear_of_count_lt (b : BitSet) (hc : b.Count < SessionIDMask) :
    ∃ t, t ≤ MaxValidSessionID ∧ b.Test t = false := by
  have hex : ∃ t, t < SessionIDMask ∧ t ∉ b.bits := by
    by_contra hno
    have hsub : Finset.range SessionIDMask ⊆ b.bits := by
      intro t ht
      rw [Finset.mem_range] at ht
      by_contra hnot
      exact hno ⟨t, ht, hnot⟩
    have hle := Finset.card_le_card hsub
    rw [Finset.card_range] at hle
    unfold BitSet.Count at hc
    omega
  obtain ⟨t, ht, hnot⟩ := hex
  refine ⟨t, ?_, ?_⟩
  · unfold MaxValidSessionID
    omega
  · unfold BitSet.Test
    split
    · rfl
    · simpa using hnot

/-- The state after a sequence of calls is one of the states that calls with
any arguments lead to. -/
theorem runCalls_reachableAny {serverID fuel : Nat} (calls : List Call)
    {m0 m : SessionIDManager} (h0 : ReachableAny serverID m0)
    (h : runCalls fuel calls m0 = some m) : ReachableAny serverID m := by
  induction calls generalizing m0 with
  | nil =>
    simp only [runCalls, Option.some.injEq] at h
    exact h ▸ h0
  | cons c cs ih =>
    unfold runCalls at h
    cases c with
    | alloc =>
      cases ha : AllocSessionID fuel m0 with
      | none => simp [step, ha] at h
      | some x =>
        simp only [step, ha, Option.map_some'] at h
        exact ih (ReachableAny.alloc fuel x.1 h0 ha) h
    | free sessionID =>
      simp only [step] at h
      exact ih (ReachableAny.free sessionID h0) h
    | isFull =>
      simp only [step] at h
      exact ih h0 h

/-- More probes do not change the result of a call that returned. -/
theorem alloc_mono {fuel : Nat} {m : SessionIDManager}
    {res : (Nat × Bool) × SessionIDManager} (k : Nat)
    (h : AllocSessionID fuel m = some res) : AllocSessionID (fuel + k) m = some res := by
  unfold AllocSessionID at h ⊢
  cases hf : isFull m
  · rw [hf] at h
    simp only [Bool.false_eq_true, if_false] at h ⊢
    cases hs : scanLoop m.sessionIDs fuel m.allocIDx with
    | none => simp [hs] at h
    | some i =>
      rw [scanLoop_mono k hs]
      rw [hs] at h
      exact h
  · rw [hf] at h
    simpa using h

/-- The state after a successful call, read from the slot the scan left at. -/
theorem alloc_of_scan {fuel s : Nat} {m : SessionIDManager} (hnf : isFull m = false)
    (hscan : scanLoop m.sessionIDs fuel m.allocIDx = some s) :
    AllocSessionID fuel m = some ((((m.serverID <<< 24) % 2 ^ 32) ||| s, true),
      { m with allocIDx := s, sessionIDs := m.sessionIDs.Set s,
               count := (m.count + 1) % 2 ^ 32 }) :=
  alloc_ok_iff.mpr ⟨hnf, s, hscan, rfl, rfl⟩

/-- C11: two managers created with different `uint8` server ids, each in any
state that calls with any arguments lead to, never return the same id from a
successful `AllocSessionID`. -/
theorem cross_instance_disjoint (serverID1 serverID2 : Nat) (m1 m2 m1' m2' : SessionIDManager)
    (fuel1 fuel2 r1 r2 : Nat) (hs1 : serverID1 < 256) (hs2 : serverID2 < 256)
    (hne : serverID1 ≠ serverID2) (h1 : ReachableAny serverID1 m1)
    (h2 : ReachableAny serverID2 m2)
    (ha1 : AllocSessionID fuel1 m1 = some ((r1, true), m1'))
    (ha2 : AllocSessionID fuel2 m2 = some ((r2, true), m2')) :
    r1 ≠ r2 ∧ r1 >>> 24 = serverID1 ∧ r2 >>> 24 = serverID2 := by
  obtain ⟨hsid1, -, hidx1, -, -⟩ := h1.shape
  obtain ⟨hsid2, -, hidx2, -, -⟩ := h2.shape
  obtain ⟨-, i1, hscan1, rfl, -⟩ := alloc_ok_iff.mp ha1
  obtain ⟨-, i2, hscan2, rfl, -⟩ := alloc_ok_iff.mp ha2
  obtain ⟨hi1, -⟩ := scanLoop_some hidx1 hscan1
  obtain ⟨hi2, -⟩ := scanLoop_some hidx2 hscan2
  subst hsid1
  subst hsid2
  have e1 := shiftRight_compose m1.serverID i1 hs1 hi1
  have e2 := shiftRight_compose m2.serverID i2 hs2 hi2
  refine ⟨?_, e1, e2⟩
  intro he
  rw [he] at e1
  exact hne (e1.symm.trans e2)

/-- C11 for the server ids `1` and `2`: the first calls on the two new managers
return `0x01000000` and `0x02000000`. -/
theorem cross_instance_disjoint_witness :
    1 < 256 ∧ 2 < 256 ∧ 1 ≠ 2 ∧
    ReachableAny 1 (NewSessionIDManager 1) ∧ ReachableAny 2 (NewSessionIDManager 2) ∧
    AllocSessionID 2 (NewSessionIDManager 1) = some ((0x01000000, true), filled 1 1) ∧
    AllocSessionID 2 (NewSessionIDManager 2) = some ((0x02000000, true), filled 2 1) ∧
    (0x01000000 ≠ 0x02000000 ∧ 0x01000000 >>> 24 = 1 ∧ 0x02000000 >>> 24 = 2) :=
  ⟨by decide, by decide, by decide, ReachableAny.init, ReachableAny.init,
    new_eq_filled 1 ▸ alloc_filled 1 0 0 (by decide),
    new_eq_filled 2 ▸ alloc_filled 2 0 0 (by decide),
    cross_instance_disjoint 1 2 (NewSessionIDManager 1) (NewSessionIDManager 2)
      (filled 1 1) (filled 2 1) 2 2 0x01000000 0x02000000 (by decide) (by decide) (by decide)
      ReachableAny.init ReachableAny.init
      (new_eq_filled 1 ▸ alloc_filled 1 0 0 (by decide))
      (new_eq_filled 2 ▸ alloc_filled 2 0 0 (by decide))⟩

/-- C12: in every state reached from `NewSessionIDManager serverID` by calls of
`AllocSessionID` and calls of `FreeSessionID` on outstanding ids,
`AllocSessionID` returns within `SessionIDMask` probes (and more probes do not
change what it returns): when the pool is not full, some slot in
`[0, MaxValidSessionID]` is clear and the scan leaves at a clear slot after at
most `SessionIDMask` probes. -/
theorem alloc_terminates (serverID : Nat) (m : SessionIDManager) (out : List Nat)
    (h : Reachable serverID m out) :
    (∃ res, AllocSessionID SessionIDMask m = some res ∧
      ∀ k, AllocSessionID (SessionIDMask + k) m = some res) ∧
    (IsFull m = false →
      (∃ t, t ≤ MaxValidSessionID ∧ m.sessionIDs.Test t = false) ∧
      ∃ s, scanLoop m.sessionIDs SessionIDMask m.allocIDx = some s ∧
        s ≤ MaxValidSessionID ∧ m.sessionIDs.Test s = false) := by
  have hinv := h.inv
  have hidx : m.allocIDx ≤ MaxValidSessionID := hinv.2.1
  have hfree : isFull m = false →
      (∃ t, t ≤ MaxValidSessionID ∧ m.sessionIDs.Test t = false) ∧
      ∃ s, scanLoop m.sessionIDs SessionIDMask m.allocIDx = some s ∧
        s ≤ MaxValidSessionID ∧ m.sessionIDs.Test s = false := by
    intro hnf
    have hclear := exists_clear_of_count_lt m.sessionIDs
      (hinv.count_eq_card ▸ (isFull_eq_false_iff m).mp hnf)
    obtain ⟨s, hfirst⟩ := exists_firstClear m.sessionIDs m.allocIDx hclear
    exact ⟨hclear, s, scanLoop_firstClear hidx hfirst 0, hfirst.1, hfirst.2.1⟩
  refine ⟨?_, hfree⟩
  cases hf : isFull m with
  | true =>
    have hres : ∀ fuel, AllocSessionID fuel m = some ((SessionIDMask, false), m) :=
      fun fuel => alloc_full_iff.mpr ⟨hf, rfl, rfl⟩
    exact ⟨_, hres _, fun k => hres _⟩
  | false =>
    obtain ⟨-, s, hscan, -, -⟩ := hfree hf
    have hres := alloc_of_scan hf hscan
    exact ⟨_, hres, fun k => alloc_mono k hres⟩

/-- C12 after two calls on `NewSessionIDManager 1`: the pool is not full, slot
`2` is clear, and the scan leaves there. -/
theorem alloc_terminates_witness :
    Reachable 1 (filled 1 2) [0x01000001, 0x01000000] ∧ IsFull (filled 1 2) = false ∧
    (∃ t, t ≤ MaxValidSessionID ∧ (filled 1 2).sessionIDs.Test t = false) ∧
    ∃ s, scanLoop (filled 1 2).sessionIDs SessionIDMask (filled 1 2).allocIDx = some s ∧
      s ≤ MaxValidSessionID ∧ (filled 1 2).sessionIDs.Test s = false :=
  ⟨reachable_filled_two, by decide,
    (alloc_terminates 1 (filled 1 2) [0x01000001, 0x01000000] reachable_filled_two).2
      (by decide)⟩

/-- C14: in a well-formed state that is not full, with cursor `c`, in which
some slot in `[0, MaxValidSessionID]` is clear, `AllocSessionID` picks the
first clear slot `s` of the cyclic order `c, c + 1, ..., MaxValidSessionID,
0, 1, ..., c - 1` (it is `c` itself when bit `c` is clear): it returns
`((serverID << 24) | s, true)` within `SessionIDMask` probes; afterwards bit
`s` is set, every other bit is as before, `count` is one more and the cursor
is `s`. -/
theorem linear_probe (m : SessionIDManager) (hwf : WellFormed m) (hnf : IsFull m = false)
    (hclear : ∃ t, t ≤ MaxValidSessionID ∧ m.sessionIDs.Test t = false) :
    ∃ s, IsFirstClear m.sessionIDs m.allocIDx s ∧
      (∀ s', IsFirstClear m.sessionIDs m.allocIDx s' → s' = s) ∧
      (m.sessionIDs.Test m.allocIDx = false → s = m.allocIDx) ∧
      (∀ k, ∃ m', AllocSessionID (SessionIDMask + k) m =
          some (((m.serverID <<< 24) ||| s, true), m') ∧
        m'.sessionIDs.Test s = true ∧
        (∀ j, j ≠ s → m'.sessionIDs.Test j = m.sessionIDs.Test j) ∧
        m'.count = m.count + 1 ∧ m'.allocIDx = s ∧ m'.serverID = m.serverID) ∧
      (∀ fuel r m', AllocSessionID fuel m = some ((r, true), m') →
        m'.allocIDx = s ∧ r = (m.serverID <<< 24) ||| s) := by
  obtain ⟨hsid, -, hidx, hl, -⟩ := hwf
  obtain ⟨s, hfirst⟩ := exists_firstClear m.sessionIDs m.allocIDx hclear
  have hscan := scanLoop_firstClear hidx hfirst
  have hshift : (m.serverID <<< 24) % 2 ^ 32 = m.serverID <<< 24 := by
    rw [Nat.shiftLeft_eq]
    omega
  have hslt : s < m.sessionIDs.length := by
    have := hfirst.1
    rw [hl]; unfold MaxValidSessionID at this; unfold SessionIDMask at *; omega
  have hcount : m.count < SessionIDMask := (isFull_eq_false_iff m).mp hnf
  refine ⟨s, hfirst, ?_, ?_, ?_, ?_⟩
  · intro s' hfirst'
    have h1 := scanLoop_firstClear hidx hfirst' 0
    rw [hscan 0] at h1
    exact (Option.some.inj h1).symm
  · intro hc
    obtain ⟨-, -, hcase⟩ := hfirst
    rcases hcase with ⟨hcs, hset⟩ | ⟨hsc, hhigh, -⟩
    · by_contra hne
      have := hset m.allocIDx (by omega) (Nat.le_refl _)
      rw [hc] at this
      exact absurd this (by simp)
    · have := hhigh m.allocIDx hidx (Nat.le_refl _)
      rw [hc] at this
      exact absurd this (by simp)
  · intro k
    have ha := alloc_of_scan hnf (hscan k)
    rw [hshift] at ha
    refine ⟨_, ha, test_set_self _ _ hslt, fun j hj => test_set_of_ne _ _ _ hslt hj, ?_,
      rfl, rfl⟩
    show (m.count + 1) % 2 ^ 32 = m.count + 1
    unfold SessionIDMask at hcount
    omega
  · intro fuel r m' ha
    obtain ⟨-, i, hscan', rfl, rfl⟩ := alloc_ok_iff.mp ha
    have h1 := scanLoop_mono SessionIDMask hscan'
    rw [Nat.add_comm, hscan fuel] at h1
    have hi : s = i := Option.some.inj h1
    subst hi
    exact ⟨rfl, by rw [hshift]⟩

/-- C14 on the state after two calls on `NewSessionIDManager 1` and the release
of `0x01000000`: the cursor is on slot `1`, which is set, and the first clear
slot of the cyclic order is `2`, not the released slot `0`. -/
theorem linear_probe_witness :
    WellFormed (FreeSessionID (filled 1 2) 0x01000000) ∧
    IsFull (FreeSessionID (filled 1 2) 0x01000000) = false ∧
    (2 ≤ MaxValidSessionID ∧
      (FreeSessionID (filled 1 2) 0x01000000).sessionIDs.Test 2 = false) ∧
    ∃ s, IsFirstClear (FreeSessionID (filled 1 2) 0x01000000).sessionIDs
        (FreeSessionID (filled 1 2) 0x01000000).allocIDx s ∧
      ∀ fuel r m', AllocSessionID fuel (FreeSessionID (filled 1 2) 0x01000000) =
          some ((r, true), m') →
        m'.allocIDx = s ∧
          r = ((FreeSessionID (filled 1 2) 0x01000000).serverID <<< 24) ||| s :=
  ⟨by decide, by decide, ⟨by decide, by decide⟩,
    (linear_probe (FreeSessionID (filled 1 2) 0x01000000) (by decide) (by decide)
      ⟨2, by decide, by decide⟩).imp (fun _ hs => ⟨hs.1, hs.2.2.2.2⟩)⟩

/-- C15: in every state reached from `NewSessionIDManager serverID` by a
sequence of calls of `AllocSessionID`, `FreeSessionID` (with any argument) and
`IsFull`, each of which returns, `0 <= allocIDx <= MaxValidSessionID`, no
bit above `MaxValidSessionID` is set, and the bitmap still has its
`SessionIDMask` bits. -/
theorem cursor_bitmap_range (serverID fuel : Nat) (calls : List Call) (m : SessionIDManager)
    (h : runCalls fuel calls (NewSessionIDManager serverID) = some m) :
    0 ≤ m.allocIDx ∧ m.allocIDx ≤ MaxValidSessionID ∧
      (∀ i ∈ m.sessionIDs.bits, i ≤ MaxValidSessionID) ∧
      (∀ i, MaxValidSessionID < i → m.sessionIDs.Test i = false) ∧
      m.sessionIDs.length = SessionIDMask := by
  obtain ⟨-, -, hidx, hl, hb⟩ := (runCalls_reachableAny calls ReachableAny.init h).shape
  have hbits : ∀ i ∈ m.sessionIDs.bits, i ≤ MaxValidSessionID := by
    intro i hi
    have := hb i hi
    unfold MaxValidSessionID
    omega
  refine ⟨Nat.zero_le _, hidx, hbits, ?_, hl⟩
  intro i hi
  unfold BitSet.Test
  split
  · rfl
  · rename_i hlen
    rw [hl] at hlen
    unfold MaxValidSessionID at hi
    omega

/-- C15 on a sequence with a release of an id that was never handed out: after
`AllocSessionID`, `FreeSessionID(0xFFFFFFFF)`, `IsFull` on
`NewSessionIDManager 1` the cursor is `0` and the bitmap has `SessionIDMask`
bits. -/
theorem cursor_bitmap_range_witness :
    runCalls 2 [Call.alloc, Call.free 0xFFFFFFFF, Call.isFull] (NewSessionIDManager 1) =
      some (FreeSessionID (filled 1 1) 0xFFFFFFFF) ∧
    0 ≤ (FreeSessionID (filled 1 1) 0xFFFFFFFF).allocIDx ∧
    (FreeSessionID (filled 1 1) 0xFFFFFFFF).allocIDx ≤ MaxValidSessionID ∧
    (∀ i ∈ (FreeSessionID (filled 1 1) 0xFFFFFFFF).sessionIDs.bits, i ≤ MaxValidSessionID) ∧
    (∀ i, MaxValidSessionID < i →
      (FreeSessionID (filled 1 1) 0xFFFFFFFF).sessionIDs.Test i = false) ∧
    (FreeSessionID (filled 1 1) 0xFFFFFFFF).sessionIDs.length = SessionIDMask :=
  have hrun : runCalls 2 [Call.alloc, Call.free 0xFFFFFFFF, Call.isFull]
      (NewSessionIDManager 1) = some (FreeSessionID (filled 1 1) 0xFFFFFFFF) := by
    have ha : AllocSessionID 2 (NewSessionIDManager 1) = some ((0x01000000, true), filled 1 1) :=
      new_eq_filled 1 ▸ alloc_filled 1 0 0 (by decide)
    simp only [runCalls, step, ha, Option.map_some']
  ⟨hrun, cursor_bitmap_range 1 2 [Call.alloc, Call.free 0xFFFFFFFF, Call.isFull]
    (FreeSessionID (filled 1 1) 0xFFFFFFFF) hrun⟩

/-- C16: for a `uint8` server id and `0 <= k < SessionIDMask`, the first `k`
calls of `AllocSessionID` on `NewSessionIDManager serverID` return, and the
call after them, the `(k + 1)`-th, returns `((serverID << 24) | k, true)` and
leaves `count = k + 1` and `allocIDx = k` (a probe budget of two is enough for
every call). -/
theorem sequential_issue (serverID fuel k : Nat) (hs : serverID < 256)
    (hk : k < SessionIDMask) :
    ∃ rs m m', allocMany (fuel + 2) k (NewSessionIDManager serverID) = some (rs, m) ∧
      rs.length = k ∧
      AllocSessionID (fuel + 2) m = some (((serverID <<< 24) ||| k, true), m') ∧
      m'.count = k + 1 ∧ m'.allocIDx = k := by
  have hshift : (serverID <<< 24) % 2 ^ 32 = serverID <<< 24 := by
    rw [Nat.shiftLeft_eq]
    omega
  have hrun := allocMany_filled serverID fuel k 0 (by omega)
  rw [← new_eq_filled, Nat.zero_add] at hrun
  have ha := alloc_filled serverID fuel k hk
  rw [hshift] at ha
  refine ⟨_, _, _, hrun, ?_, ha, rfl, ?_⟩
  · rw [List.length_map, List.length_range']
  · show k + 1 - 1 = k
    omega

/-- C16 for `serverID = 7` and `k = 2`: the third call returns `0x07000002`. -/
theorem sequential_issue_witness :
    7 < 256 ∧ 2 < SessionIDMask ∧
    ∃ rs m m', allocMany 2 2 (NewSessionIDManager 7) = some (rs, m) ∧
      rs.length = 2 ∧
      AllocSessionID 2 m = some (((7 <<< 24) ||| 2, true), m') ∧
      m'.count = 2 + 1 ∧ m'.allocIDx = 2 :=
  ⟨by decide, by decide, sequential_issue 7 0 2 (by decide) (by decide)⟩

/-- C17: in a state with `count = 0` a call of `FreeSessionID`, with any
argument, wraps `count` to `2 ^ 32 - 1 = 4294967295`; afterwards `IsFull` is
true and `AllocSessionID` returns `(0x00FFFFFF, false)`; on a new manager this
happens although no bit of the bitmap is set. -/
theorem count_underflow (m : SessionIDManager) (sessionID : Nat) (h0 : m.count = 0) :
    (FreeSessionID m sessionID).count = 4294967295 ∧ 2 ^ 32 - 1 = 4294967295 ∧
      IsFull (FreeSessionID m sessionID) = true ∧
      (∀ fuel, AllocSessionID fuel (FreeSessionID m sessionID) =
        some ((0x00FFFFFF, false), FreeSessionID m sessionID)) ∧
      (∀ serverID,
        (NewSessionIDManager serverID).count = 0 ∧
        (FreeSessionID (NewSessionIDManager serverID) sessionID).sessionIDs.Count = 0 ∧
        ∀ i, (FreeSessionID (NewSessionIDManager serverID) sessionID).sessionIDs.Test i
          = false) := by
  have hcount : (FreeSessionID m sessionID).count = 4294967295 := by
    show (m.count + 2 ^ 32 - 1) % 2 ^ 32 = 4294967295
    rw [h0]
    rfl
  have hfull : isFull (FreeSessionID m sessionID) = true := by
    rw [isFull_eq_true_iff, hcount]
    decide
  have hbits : ∀ serverID,
      (FreeSessionID (NewSessionIDManager serverID) sessionID).sessionIDs.bits = ∅ := by
    intro serverID
    show ((BitSet.New SessionIDMask).ClearAll.Clear (sessionID &&& SessionIDMask)).bits = ∅
    unfold BitSet.Clear
    split
    · rfl
    · exact Finset.erase_empty _
  refine ⟨hcount, rfl, hfull, fun fuel => alloc_full_iff.mpr ⟨hfull, rfl, rfl⟩, ?_⟩
  intro serverID
  refine ⟨rfl, ?_, ?_⟩
  · unfold BitSet.Count
    rw [hbits serverID]
    rfl
  · intro i
    unfold BitSet.Test
    rw [hbits serverID]
    split <;> simp

/-- C17 on `NewSessionIDManager 1` with the argument `0`. -/
theorem count_underflow_witness :
    (NewSessionIDManager 1).count = 0 ∧
    (FreeSessionID (NewSessionIDManager 1) 0).count = 4294967295 ∧
    IsFull (FreeSessionID (NewSessionIDManager 1) 0) = true ∧
    AllocSessionID 5 (FreeSessionID (NewSessionIDManager 1) 0) =
      some ((0x00FFFFFF, false), FreeSessionID (NewSessionIDManager 1) 0) ∧
    (FreeSessionID (NewSessionIDManager 1) 0).sessionIDs.Count = 0 :=
  ⟨rfl, (count_underflow (NewSessionIDManager 1) 0 rfl).1,
    (count_underflow (NewSessionIDManager 1) 0 rfl).2.2.1,
    (count_underflow (NewSessionIDManager 1) 0 rfl).2.2.2.1 5,
    ((count_underflow (NewSessionIDManager 1) 0 rfl).2.2.2.2 1).2.1⟩

/-- When every valid slot is set and the pool does not count as full, a call
of `AllocSessionID` does not return, whatever the number of probes. -/
theorem alloc_none_of_all_set (m : SessionIDManager) (hidx : m.allocIDx ≤ MaxValidSessionID)
    (hnf : isFull m = false) (hall : ∀ i ≤ MaxValidSessionID, m.sessionIDs.Test i = true)
    (n : Nat) : AllocSessionID n m = none := by
  unfold AllocSessionID
  rw [hnf, scanLoop_all_set m.sessionIDs n m.allocIDx hidx hall]
  rfl

/-- The full state, two releases of the id of slot `0`, and the call of
`AllocSessionID` after them: slot `0` is handed out again, every valid slot is
set and `count` is `SessionIDMask - 1`. -/
theorem alloc_after_double_release (serverID fuel : Nat) :
    ∃ m2 r2, AllocSessionID (fuel + 2)
        (FreeSessionID (FreeSessionID (filled serverID SessionIDMask)
          (((serverID <<< 24) % 2 ^ 32) ||| 0)) (((serverID <<< 24) % 2 ^ 32) ||| 0)) =
        some ((r2, true), m2) ∧
      (∀ i, i ≤ MaxValidSessionID → m2.sessionIDs.Test i = true) ∧
      m2.count = SessionIDMask - 1 ∧ m2.allocIDx ≤ MaxValidSessionID := by
  have hslot : (((serverID <<< 24) % 2 ^ 32) ||| 0) &&& SessionIDMask = 0 :=
    slotOf_compose serverID 0 (Nat.zero_le _)
  have hfilled : ∀ i, i ≤ MaxValidSessionID →
      (filled serverID SessionIDMask).sessionIDs.Test i = true := by
    intro i hi
    have hlt : i < SessionIDMask := by
      unfold MaxValidSessionID at hi
      unfold SessionIDMask at *
      omega
    simp only [filled, BitSet.Test, ge_iff_le, Finset.mem_range]
    rw [if_neg (show ¬ SessionIDMask ≤ i by omega)]
    simpa using hlt
  have hlen : ((filled serverID SessionIDMask).sessionIDs.Clear 0).length = SessionIDMask := by
    unfold BitSet.Clear
    split <;> rfl
  have hlen2 : (((filled serverID SessionIDMask).sessionIDs.Clear 0).Clear 0).length =
      SessionIDMask := by
    unfold BitSet.Clear at hlen ⊢
    split
    · exact hlen
    · exact hlen
  have hm3 : (FreeSessionID (FreeSessionID (filled serverID SessionIDMask)
      (((serverID <<< 24) % 2 ^ 32) ||| 0)) (((serverID <<< 24) % 2 ^ 32) ||| 0)).sessionIDs =
      ((filled serverID SessionIDMask).sessionIDs.Clear 0).Clear 0 := by
    show ((filled serverID SessionIDMask).sessionIDs.Clear _).Clear _ = _
    rw [hslot]
  have hnf : isFull (FreeSessionID (FreeSessionID (filled serverID SessionIDMask)
      (((serverID <<< 24) % 2 ^ 32) ||| 0)) (((serverID <<< 24) % 2 ^ 32) ||| 0)) = false := by
    rw [isFull_eq_false_iff]
    show ((SessionIDMask + 2 ^ 32 - 1) % 2 ^ 32 + 2 ^ 32 - 1) % 2 ^ 32 < SessionIDMask
    decide
  have hscan : scanLoop (((filled serverID SessionIDMask).sessionIDs.Clear 0).Clear 0)
      (fuel + 2) MaxValidSessionID = some 0 := by
    have h := scanLoop_wrap (((filled serverID SessionIDMask).sessionIDs.Clear 0).Clear 0)
      0 MaxValidSessionID 0 fuel rfl (test_clear_self _ 0) (Nat.zero_le _)
      (fun i hi hci => by
        have hne : i ≠ 0 := by
          have : 0 < MaxValidSessionID := by decide
          omega
        rw [test_clear_of_ne _ 0 i hne, test_clear_of_ne _ 0 i hne]
        exact hfilled i hi)
      (fun i hi => absurd hi (Nat.not_lt_zero i))
    rw [show 0 + 1 + (0 + 1 + fuel) = fuel + 2 by omega] at h
    exact h
  have ha := alloc_of_scan hnf (hm3.symm ▸ hscan)
  refine ⟨_, _, ha, ?_, ?_, Nat.zero_le _⟩
  · intro i hi
    show (_ : BitSet).Test i = true
    rw [hm3]
    by_cases h0 : i = 0
    · subst h0
      exact test_set_self _ 0 (by rw [hlen2]; decide)
    · rw [test_set_of_ne _ 0 i (by rw [hlen2]; decide) h0, test_clear_of_ne _ 0 i h0,
        test_clear_of_ne _ 0 i h0]
      exact hfilled i hi
  · show (((SessionIDMask + 2 ^ 32 - 1) % 2 ^ 32 + 2 ^ 32 - 1) % 2 ^ 32 + 1) % 2 ^ 32 =
      SessionIDMask - 1
    decide

/-- C18: on `NewSessionIDManager serverID`, `SessionIDMask` successful calls of
`AllocSessionID`, then two calls of `FreeSessionID` on the id `r` that the
first of them returned, then one more successful `AllocSessionID` lead to a
state in which every slot in `[0, MaxValidSessionID]` is set while
`count = SessionIDMask - 1`: `IsFull` is false, the scan of the next
`AllocSessionID` meets a set bit at every probe, and the call does not return
within any number of probes. -/
theorem double_release_loops (serverID fuel : Nat) :
    ∃ rs m1 r m2 r2,
      allocMany (fuel + 2) SessionIDMask (NewSessionIDManager serverID) = some (rs, m1) ∧
      rs.length = SessionIDMask ∧ (∀ x ∈ rs, x.2 = true) ∧ rs.head? = some (r, true) ∧
      AllocSessionID (fuel + 2) (FreeSessionID (FreeSessionID m1 r) r) = some ((r2, true), m2) ∧
      (∀ i, i ≤ MaxValidSessionID → m2.sessionIDs.Test i = true) ∧
      m2.count = SessionIDMask - 1 ∧ IsFull m2 = false ∧
      (∀ n, scanLoop m2.sessionIDs n m2.allocIDx = none) ∧
      ∀ n, AllocSessionID n m2 = none := by
  have hrun := allocMany_filled serverID fuel SessionIDMask 0 (by omega)
  rw [← new_eq_filled, Nat.zero_add] at hrun
  obtain ⟨m2, r2, ha, hall, hcount, hidx⟩ := alloc_after_double_release serverID fuel
  have hnf : isFull m2 = false := by
    rw [isFull_eq_false_iff, hcount]
    decide
  refine ⟨_, _, ((serverID <<< 24) % 2 ^ 32) ||| 0, m2, r2, hrun, ?_, ?_, ?_, ha, hall, hcount,
    hnf, fun n => scanLoop_all_set _ n _ hidx hall,
    fun n => alloc_none_of_all_set m2 hidx hnf hall n⟩
  · rw [List.length_map, List.length_range']
  · intro x hx
    rw [List.mem_map] at hx
    obtain ⟨i, -, rfl⟩ := hx
    rfl
  · have : SessionIDMask = (SessionIDMask - 1) + 1 := by decide
    rw [this, List.range'_succ]
    rfl

end StratumSwitcher
